import Mathlib

/-!
Verification of the ytdl-playlist repository (a YouTube-audio → Google-Drive
Telegram bot).  The Python sources `main.py` and `drive_utils.py` are shallowly
embedded below: pure string helpers become Lean functions on `List Char` /
`String`, the remote Drive store becomes an explicit state record threaded
through the operations, and the message handler's control flow (including its
`try`/`finally` cleanup) becomes explicit branching producing an event log.
-/

namespace Ytdl

/-! ## Character classes

`isPySpace` models what Python's `re` module matches for `\s` on `str`
patterns: ASCII whitespace plus the Unicode whitespace code points. -/

def isPySpace (c : Char) : Bool :=
  c = ' ' || c = '\t' || c = '\n' || c = '\r' || c.val = 0x0b || c.val = 0x0c ||
  (0x1c ≤ c.val && c.val ≤ 0x1f) || c.val = 0x85 || c.val = 0xa0 ||
  c.val = 0x1680 || (0x2000 ≤ c.val && c.val ≤ 0x200a) ||
  c.val = 0x2028 || c.val = 0x2029 || c.val = 0x202f || c.val = 0x205f ||
  c.val = 0x3000

/-- Models `unicodedata.category(ch)[0] in ("S", "C")` from
`sanitize_filename`.  Exact on Basic Latin and Latin-1 Supplement (category C:
the C0/C1 controls, DEL and SOFT HYPHEN; category S: `$ + < = > ^` backquote,
`| ~` and the Latin-1 currency/modifier/math symbols).  Above U+00FF only the
common symbol and emoji blocks are listed; other code points are treated as
non-symbol, which is the identity branch of the filter.  No theorem below
depends on the classification outside Basic Latin. -/
def isSymbolOrControl (c : Char) : Bool :=
  let v := c.val
  v < 0x20 || v = 0x7f ||
  v = 0x24 || v = 0x2b || v = 0x3c || v = 0x3d || v = 0x3e ||
  v = 0x5e || v = 0x60 || v = 0x7c || v = 0x7e ||
  (0x80 ≤ v && v ≤ 0x9f) ||
  (0xa2 ≤ v && v ≤ 0xa6) || v = 0xa8 || v = 0xa9 || v = 0xac || v = 0xad ||
  v = 0xae || v = 0xaf || v = 0xb0 || v = 0xb1 || v = 0xb4 || v = 0xb8 ||
  v = 0xd7 || v = 0xf7 ||
  (0x2190 ≤ v && v ≤ 0x2426) || (0x2440 ≤ v && v ≤ 0x245f) ||
  (0x2500 ≤ v && v ≤ 0x2bff) || (0x2e00 ≤ v && v ≤ 0x2e7f) ||
  (0xfe00 ≤ v && v ≤ 0xfe0f) || v = 0xfeff ||
  (0x1f000 ≤ v && v ≤ 0x1faff) || (0xe0000 ≤ v && v ≤ 0xe007f) ||
  (0x200b ≤ v && v ≤ 0x200f) || (0x202a ≤ v && v ≤ 0x202e) ||
  (0x2060 ≤ v && v ≤ 0x2064)

/-- The allow-list of punctuation kept by `sanitize_filename`'s first step:
`ch in ("-", "'", "&", ",", ".", "!", "?")`. -/
def isAllowedPunct (c : Char) : Bool :=
  c = '-' || c = '\'' || c = '&' || c = ',' || c = '.' || c = '!' || c = '?'

/-- The character class of `_SPECIAL_CHARS_RE`, i.e. `[|/\\:*?"<>]`. -/
def isSpecialChar (c : Char) : Bool :=
  c = '|' || c = '/' || c = '\\' || c = ':' || c = '*' || c = '?' ||
  c = '"' || c = '<' || c = '>'

/-- The strip set of the final `.strip(" -_()")`. -/
def isStripChar (c : Char) : Bool :=
  c = ' ' || c = '-' || c = '_' || c = '(' || c = ')'

/-- ASCII `\d` (the theorems only exercise ASCII input). -/
def isDigitChar (c : Char) : Bool :=
  '0' ≤ c && c ≤ '9'

/-- ASCII word character for `\w` (the theorems only exercise ASCII input). -/
def isWordChar (c : Char) : Bool :=
  ('a' ≤ c && c ≤ 'z') || ('A' ≤ c && c ≤ 'Z') || isDigitChar c || c = '_'

/-! ## Literal matching -/

/-- Case-insensitive literal match (for the `re.IGNORECASE` garbage pattern).
The pattern `p` is given in lowercase; on success returns the rest of the
input.  ASCII case folding, as in `Char.toLower`. -/
def matchLitCI (p : List Char) (s : List Char) : Option (List Char) :=
  match p, s with
  | [], s => some s
  | _ :: _, [] => none
  | a :: ps, c :: cs => if c.toLower = a then matchLitCI ps cs else none

/-- Case-sensitive literal match (the URL patterns are compiled without
`re.IGNORECASE`). -/
def matchLitCS (p : List Char) (s : List Char) : Option (List Char) :=
  match p, s with
  | [], s => some s
  | _ :: _, [] => none
  | a :: ps, c :: cs => if c = a then matchLitCS ps cs else none

/-- Consume a maximal run of `\s` characters. -/
def dropWs (s : List Char) : List Char :=
  s.dropWhile isPySpace

theorem matchLitCI_length_le :
    ∀ (p s r : List Char), matchLitCI p s = some r → r.length ≤ s.length := by
  intro p
  induction p with
  | nil => intro s r h; simp [matchLitCI] at h; simp [h]
  | cons a ps ih =>
    intro s r h
    cases s with
    | nil => simp [matchLitCI] at h
    | cons c cs =>
      simp only [matchLitCI] at h
      split at h
      · exact Nat.le_succ_of_le (ih cs r h)
      · exact absurd h (by simp)

theorem matchLitCI_length_lt (a : Char) (p s r : List Char)
    (h : matchLitCI (a :: p) s = some r) : r.length < s.length := by
  cases s with
  | nil => simp [matchLitCI] at h
  | cons c cs =>
    simp only [matchLitCI] at h
    split at h
    · exact Nat.lt_succ_of_le (matchLitCI_length_le p cs r h)
    · exact absurd h (by simp)

theorem dropWs_length_le (s : List Char) : (dropWs s).length ≤ s.length :=
  List.Sublist.length_le (List.dropWhile_sublist _)

/-! ## The garbage pattern of `_GARBAGE_RE`

A tiny backtracking-regex evaluator, specialised to the constructs appearing
in `_GARBAGE_RE`.  `reMatches re s` lists the possible rests of `s` after a
match of `re`, in the priority order a backtracking engine (Python `re`)
explores them: greedy `\s*` longest-first, `?` present-first, alternation
left-to-right.  The first element is the rest Python's leftmost match leaves
when nothing follows `re`. -/

inductive RE where
  | lit (p : List Char)
  | cls (cs : List Char)
  | ws
  | digits4
  | opt (r : RE)
  | seq (r1 r2 : RE)
  | alt (r1 r2 : RE)

/-- Candidate rests after `\s*`, longest consumption first. -/
def wsCandidates : List Char → List (List Char)
  | [] => [[]]
  | c :: cs =>
    if isPySpace c then wsCandidates cs ++ [c :: cs] else [c :: cs]

/-- Exactly four decimal digits (`\d{4}`). -/
def matchDigits4 (s : List Char) : Option (List Char) :=
  match s with
  | a :: b :: c :: d :: r =>
    if isDigitChar a && isDigitChar b && isDigitChar c && isDigitChar d then
      some r
    else none
  | _ => none

def reMatches : RE → List Char → List (List Char)
  | .lit p, s => match matchLitCI p s with | some r => [r] | none => []
  | .cls cs, s =>
    match s with
    | c :: rest => if cs.contains c then [rest] else []
    | [] => []
  | .ws, s => wsCandidates s
  | .digits4, s => match matchDigits4 s with | some r => [r] | none => []
  | .opt r, s => reMatches r s ++ [s]
  | .seq r1 r2, s => (reMatches r1 s).flatMap (reMatches r2)
  | .alt r1 r2, s => reMatches r1 s ++ reMatches r2 s

/-- Shorthand: the lowercase characters of a pattern literal. -/
def lre (p : String) : RE := .lit p.toList

/-- `(?:Official\s*(?:Music\s*)?Video|Official\s*Audio|Official\s*Lyric\s*Video|Lyrics?\s*(?:Video)?|Music\s*Video|HD|HQ|4K|MV|Audio|Visualizer|Visualiser|Remastered(?:\s*\d{4})?|Live|Acoustic|Remix|Karaoke)`,
alternatives in source order. -/
def garbageAlts : RE :=
  .alt (.seq (lre "official") (.seq .ws (.seq (.opt (.seq (lre "music") .ws)) (lre "video")))) <|
  .alt (.seq (lre "official") (.seq .ws (lre "audio"))) <|
  .alt (.seq (lre "official") (.seq .ws (.seq (lre "lyric") (.seq .ws (lre "video"))))) <|
  .alt (.seq (lre "lyric") (.seq (.opt (lre "s")) (.seq .ws (.opt (lre "video"))))) <|
  .alt (.seq (lre "music") (.seq .ws (lre "video"))) <|
  .alt (lre "hd") <|
  .alt (lre "hq") <|
  .alt (lre "4k") <|
  .alt (lre "mv") <|
  .alt (lre "audio") <|
  .alt (lre "visualizer") <|
  .alt (lre "visualiser") <|
  .alt (.seq (lre "remastered") (.opt (.seq .ws .digits4))) <|
  .alt (lre "live") <|
  .alt (lre "acoustic") <|
  .alt (lre "remix") (lre "karaoke")

/-- The whole `_GARBAGE_RE`: `\s*[\[\(]?\s*(?:…)\s*[\]\)]?`. -/
def garbageRE : RE :=
  .seq .ws <|
  .seq (.opt (.cls ['[', '('])) <|
  .seq .ws <|
  .seq garbageAlts <|
  .seq .ws (.opt (.cls [']', ')']))

/-- Leftmost-match attempt of `_GARBAGE_RE` at the head of `s`: the rest of
the string after the match, if one starts here. -/
def garbageHere (s : List Char) : Option (List Char) :=
  (reMatches garbageRE s).head?

/-- Syntactic guarantee that a pattern consumes at least one character. -/
def consumes : RE → Bool
  | .lit p => !p.isEmpty
  | .cls _ => true
  | .ws => false
  | .digits4 => true
  | .opt _ => false
  | .seq r1 r2 => consumes r1 || consumes r2
  | .alt r1 r2 => consumes r1 && consumes r2

theorem wsCandidates_length_le (s r : List Char) (h : r ∈ wsCandidates s) :
    r.length ≤ s.length := by
  induction s with
  | nil => simp [wsCandidates] at h; simp [h]
  | cons c cs ih =>
    simp only [wsCandidates] at h
    split at h
    · rcases List.mem_append.mp h with h' | h'
      · exact Nat.le_succ_of_le (ih h')
      · simp at h'; simp [h']
    · simp at h; simp [h]

theorem matchDigits4_length_le (s r : List Char) (h : matchDigits4 s = some r) :
    r.length ≤ s.length := by
  unfold matchDigits4 at h
  split at h
  · split at h
    · cases h; simp; omega
    · exact absurd h (by simp)
  · exact absurd h (by simp)

theorem reMatches_length_le :
    ∀ (re : RE) (s r : List Char), r ∈ reMatches re s → r.length ≤ s.length := by
  intro re
  induction re with
  | lit p =>
    intro s r h
    simp only [reMatches] at h
    cases hm : matchLitCI p s with
    | none => rw [hm] at h; simp at h
    | some t => rw [hm] at h; simp at h; exact h ▸ matchLitCI_length_le p s t hm
  | cls cs =>
    intro s r h
    simp only [reMatches] at h
    cases s with
    | nil => simp at h
    | cons c rest =>
      split at h <;> simp_all
  | ws => exact fun s r h => wsCandidates_length_le s r h
  | digits4 =>
    intro s r h
    simp only [reMatches] at h
    cases hm : matchDigits4 s with
    | none => rw [hm] at h; simp at h
    | some t => rw [hm] at h; simp at h; exact h ▸ matchDigits4_length_le s t hm
  | opt r ih =>
    intro s t h
    simp only [reMatches] at h
    rcases List.mem_append.mp h with h' | h'
    · exact ih s t h'
    · simp at h'; simp [h']
  | seq r1 r2 ih1 ih2 =>
    intro s t h
    simp only [reMatches] at h
    rcases List.mem_flatMap.mp h with ⟨m, hm, ht⟩
    exact Nat.le_trans (ih2 m t ht) (ih1 s m hm)
  | alt r1 r2 ih1 ih2 =>
    intro s t h
    simp only [reMatches] at h
    rcases List.mem_append.mp h with h' | h'
    · exact ih1 s t h'
    · exact ih2 s t h'

theorem reMatches_length_lt :
    ∀ (re : RE), consumes re = true →
      ∀ (s r : List Char), r ∈ reMatches re s → r.length < s.length := by
  intro re
  induction re with
  | lit p =>
    intro hc s r h
    simp only [reMatches] at h
    cases hm : matchLitCI p s with
    | none => rw [hm] at h; simp at h
    | some t =>
      rw [hm] at h; simp at h
      cases p with
      | nil => simp [consumes] at hc
      | cons a ps => exact h ▸ matchLitCI_length_lt a ps s t hm
  | cls cs =>
    intro _ s r h
    simp only [reMatches] at h
    cases s with
    | nil => simp at h
    | cons c rest =>
      split at h <;> simp_all
  | ws => intro hc; simp [consumes] at hc
  | digits4 =>
    intro _ s r h
    simp only [reMatches] at h
    cases hm : matchDigits4 s with
    | none => rw [hm] at h; simp at h
    | some t =>
      rw [hm] at h; simp at h
      subst h
      unfold matchDigits4 at hm
      split at hm
      · split at hm
        · cases hm; simp; omega
        · exact absurd hm (by simp)
      · exact absurd hm (by simp)
  | opt r ih => intro hc; simp [consumes] at hc
  | seq r1 r2 ih1 ih2 =>
    intro hc s t h
    simp only [reMatches] at h
    rcases List.mem_flatMap.mp h with ⟨m, hm, ht⟩
    simp only [consumes, Bool.or_eq_true] at hc
    rcases hc with hc | hc
    · exact Nat.lt_of_le_of_lt (reMatches_length_le r2 m t ht) (ih1 hc s m hm)
    · exact Nat.lt_of_lt_of_le (ih2 hc m t ht) (reMatches_length_le r1 s m hm)
  | alt r1 r2 ih1 ih2 =>
    intro hc s t h
    simp only [consumes, Bool.and_eq_true] at hc
    simp only [reMatches] at h
    rcases List.mem_append.mp h with h' | h'
    · exact ih1 hc.1 s t h'
    · exact ih2 hc.2 s t h'

theorem garbageHere_length_lt (s r : List Char) (h : garbageHere s = some r) :
    r.length < s.length := by
  have hmem : r ∈ reMatches garbageRE s := by
    unfold garbageHere at h
    exact List.mem_of_mem_head? h
  exact reMatches_length_lt garbageRE (by decide) s r hmem

/-! ## `re.sub` scanning and the rest of the sanitize pipeline -/

/-- Models `_GARBAGE_RE.sub("", s)`: scan left to right; at each position, if
a match of the pattern starts here, delete it and continue after it,
otherwise keep the character.  The fuel argument only bounds the recursion
(each step consumes at least one character, so `s.length + 1` is always
enough); it keeps the definition structurally recursive so that concrete
inputs evaluate by kernel reduction. -/
def garbageSubFuel : Nat → List Char → List Char
  | 0, s => s
  | _ + 1, [] => []
  | fuel + 1, c :: cs =>
    (garbageHere (c :: cs)).elim (c :: garbageSubFuel fuel cs)
      (fun rest => garbageSubFuel fuel rest)

def garbageSub (s : List Char) : List Char :=
  garbageSubFuel (s.length + 1) s

/-- Fuel irrelevance: any fuel above the input length gives the same result. -/
theorem garbageSubFuel_eq_of_fuel_ge :
    ∀ (f g : Nat) (s : List Char), s.length < f → s.length < g →
      garbageSubFuel f s = garbageSubFuel g s := by
  intro f
  induction f using Nat.strong_induction_on with
  | _ f ih =>
    intro g s hf hg
    cases f with
    | zero => omega
    | succ f' =>
      cases g with
      | zero => omega
      | succ g' =>
        cases s with
        | nil => rfl
        | cons c cs =>
          cases hm : garbageHere (c :: cs) with
          | some rest =>
            have hlt := garbageHere_length_lt _ _ hm
            simp only [garbageSubFuel, hm, Option.elim]
            simp only [List.length_cons] at hf hg
            simp only [List.length_cons] at hlt
            exact ih f' (by omega) g' rest (by omega) (by omega)
          | none =>
            simp only [garbageSubFuel, hm, Option.elim]
            simp only [List.length_cons] at hf hg
            rw [ih f' (by omega) g' cs (by omega) (by omega)]

theorem garbageSub_cons_none {c : Char} {cs : List Char}
    (h : garbageHere (c :: cs) = none) :
    garbageSub (c :: cs) = c :: garbageSub cs := by
  unfold garbageSub
  simp only [List.length_cons, garbageSubFuel, h, Option.elim]

theorem garbageSub_cons_some {c : Char} {cs rest : List Char}
    (h : garbageHere (c :: cs) = some rest) :
    garbageSub (c :: cs) = garbageSub rest := by
  have hlt := garbageHere_length_lt _ _ h
  simp only [List.length_cons] at hlt
  unfold garbageSub
  simp only [List.length_cons, garbageSubFuel, h, Option.elim]
  exact garbageSubFuel_eq_of_fuel_ge (cs.length + 1) (rest.length + 1) rest
    (by omega) (by omega)

/-- A string on which the garbage pattern matches nowhere is left unchanged
by the substitution. -/
theorem garbageSub_eq_self_of_no_match :
    ∀ (s : List Char), (∀ t ∈ s.tails, garbageHere t = none) →
      garbageSub s = s := by
  intro s
  induction s with
  | nil => intro _; rfl
  | cons c cs ih =>
    intro h
    have hc : garbageHere (c :: cs) = none := h _ (by simp)
    rw [garbageSub_cons_none hc]
    refine congrArg (c :: ·) (ih fun t ht => h t ?_)
    rcases (List.mem_tails _ _).mp ht with ⟨u, rfl⟩
    exact (List.mem_tails _ _).mpr ⟨c :: u, rfl⟩

/-- Models `re.sub(r"\s{2,}", " ", s)`: each maximal run of two or more `\s`
characters becomes a single space; runs of length one are kept verbatim.
`Pend` carries the whitespace seen so far in the current run. -/
inductive Pend where
  | nothing
  | one (c : Char)
  | many

def flushPend : Pend → List Char
  | .nothing => []
  | .one c => [c]
  | .many => [' ']

def collapseWsAux : Pend → List Char → List Char
  | p, [] => flushPend p
  | .nothing, c :: cs =>
    if isPySpace c then collapseWsAux (.one c) cs
    else c :: collapseWsAux .nothing cs
  | .one d, c :: cs =>
    if isPySpace c then collapseWsAux .many cs
    else d :: c :: collapseWsAux .nothing cs
  | .many, c :: cs =>
    if isPySpace c then collapseWsAux .many cs
    else ' ' :: c :: collapseWsAux .nothing cs

def collapseWs (s : List Char) : List Char :=
  collapseWsAux .nothing s

/-- Python `str.strip(chars)`: drop the characters of the set from both
ends. -/
def pyStrip (p : Char → Bool) (s : List Char) : List Char :=
  ((s.dropWhile p).reverse.dropWhile p).reverse

/-- `sanitize_filename` from `main.py`, on the character list of the title:
drop symbol/control characters except the allowed punctuation, delete
garbage-tag matches, delete filesystem-special characters, collapse
whitespace runs, and strip `" -_()"` from both ends. -/
def sanitize_filename (name : List Char) : List Char :=
  pyStrip isStripChar
    (collapseWs
      ((garbageSub
          (name.filter fun c => !(isSymbolOrControl c) || isAllowedPunct c)).filter
        fun c => !(isSpecialChar c)))

/-- `sanitize_filename` on `String`s. -/
def sanitizeName (s : String) : String :=
  ⟨sanitize_filename s.toList⟩

example : sanitizeName "Linkin Park - Numb (Official Video)" = "Linkin Park - Numb" := by decide
example : sanitizeName "Artist - Song [4K]" = "Artist - Song" := by decide
example : sanitizeName "Artist - Song (Lyrics)" = "Artist - Song" := by decide
example : sanitizeName "Artist - Song (Official Music Video)" = "Artist - Song" := by decide
example : sanitizeName "Artist - Song [HD]" = "Artist - Song" := by decide
example : sanitizeName "Artist  -   Song" = "Artist - Song" := by decide
example : sanitizeName "  - Song Title - " = "Song Title" := by decide
example : sanitizeName "" = "" := by decide
example : sanitizeName "Rock & Roll, Baby!" = "Rock & Roll, Baby!" := by decide
example : sanitizeName "HHDD" = "HD" := by decide
example : sanitizeName "HD" = "" := by decide

/-! ## Properties of the sanitize pipeline -/

theorem mem_of_mem_pyStrip {p : Char → Bool} {s : List Char} {c : Char}
    (h : c ∈ pyStrip p s) : c ∈ s := by
  unfold pyStrip at h
  rw [List.mem_reverse] at h
  have h1 := (List.dropWhile_sublist p).subset h
  rw [List.mem_reverse] at h1
  exact (List.dropWhile_sublist p).subset h1

theorem head?_dropWhile_false {p : Char → Bool} :
    ∀ {s : List Char} {c : Char}, (s.dropWhile p).head? = some c → p c = false := by
  intro s
  induction s with
  | nil => intro c h; simp [List.dropWhile] at h
  | cons a as ih =>
    intro c h
    rw [List.dropWhile_cons] at h
    split at h
    · exact ih h
    · simp at h
      rename_i hpa
      rw [← h]
      simpa using hpa

theorem pyStrip_getLast? {p : Char → Bool} {s : List Char} {c : Char}
    (h : (pyStrip p s).getLast? = some c) : p c = false := by
  unfold pyStrip at h
  rw [List.getLast?_reverse] at h
  exact head?_dropWhile_false h

theorem pyStrip_head? {p : Char → Bool} {s : List Char} {c : Char}
    (h : (pyStrip p s).head? = some c) : p c = false := by
  unfold pyStrip at h
  rw [List.head?_reverse] at h
  have hne : (s.dropWhile p).reverse.dropWhile p ≠ [] := by
    intro he; rw [he] at h; simp at h
  have hglast :=
    List.getLast?_append_of_ne_nil (List.takeWhile p (s.dropWhile p).reverse) hne
  rw [List.takeWhile_append_dropWhile, List.getLast?_reverse] at hglast
  exact head?_dropWhile_false (hglast.trans h)

theorem mem_collapseWsAux :
    ∀ (s : List Char) (p : Pend) (c : Char), c ∈ collapseWsAux p s →
      c ∈ flushPend p ∨ c ∈ s ∨ c = ' ' := by
  intro s
  induction s with
  | nil =>
    intro p c h
    cases p <;> exact Or.inl h
  | cons a as ih =>
    intro p c h
    cases p with
    | nothing =>
      simp only [collapseWsAux] at h
      split at h
      · rcases ih _ _ h with h' | h' | h'
        · simp only [flushPend, List.mem_singleton] at h'
          exact Or.inr (Or.inl (by simp [h']))
        · exact Or.inr (Or.inl (by simp [h']))
        · exact Or.inr (Or.inr h')
      · rcases List.mem_cons.mp h with h' | h'
        · exact Or.inr (Or.inl (by simp [h']))
        · rcases ih _ _ h' with h3 | h3 | h3
          · simp [flushPend] at h3
          · exact Or.inr (Or.inl (by simp [h3]))
          · exact Or.inr (Or.inr h3)
    | one d =>
      simp only [collapseWsAux] at h
      split at h
      · rcases ih _ _ h with h' | h' | h'
        · simp only [flushPend, List.mem_singleton] at h'
          exact Or.inr (Or.inr h')
        · exact Or.inr (Or.inl (by simp [h']))
        · exact Or.inr (Or.inr h')
      · rcases List.mem_cons.mp h with h' | h'
        · exact Or.inl (by simp [flushPend, h'])
        · rcases List.mem_cons.mp h' with h'' | h''
          · exact Or.inr (Or.inl (by simp [h'']))
          · rcases ih _ _ h'' with h3 | h3 | h3
            · simp [flushPend] at h3
            · exact Or.inr (Or.inl (by simp [h3]))
            · exact Or.inr (Or.inr h3)
    | many =>
      simp only [collapseWsAux] at h
      split at h
      · rcases ih _ _ h with h' | h' | h'
        · simp only [flushPend, List.mem_singleton] at h'
          exact Or.inr (Or.inr h')
        · exact Or.inr (Or.inl (by simp [h']))
        · exact Or.inr (Or.inr h')
      · rcases List.mem_cons.mp h with h' | h'
        · exact Or.inr (Or.inr h')
        · rcases List.mem_cons.mp h' with h'' | h''
          · exact Or.inr (Or.inl (by simp [h'']))
          · rcases ih _ _ h'' with h3 | h3 | h3
            · simp [flushPend] at h3
            · exact Or.inr (Or.inl (by simp [h3]))
            · exact Or.inr (Or.inr h3)

theorem mem_collapseWs {s : List Char} {c : Char} (h : c ∈ collapseWs s) :
    c ∈ s ∨ c = ' ' := by
  rcases mem_collapseWsAux s .nothing c h with h' | h' | h'
  · simp [flushPend] at h'
  · exact Or.inl h'
  · exact Or.inr h'

/-- No two adjacent `\s` characters (so `\s{2,}` matches nowhere). -/
def noTwoAdjacentWs : List Char → Bool
  | [] => true
  | [_] => true
  | a :: b :: rest => !(isPySpace a && isPySpace b) && noTwoAdjacentWs (b :: rest)

theorem collapseWs_eq_self :
    ∀ (s : List Char), noTwoAdjacentWs s = true → collapseWs s = s := by
  intro s
  induction s with
  | nil => intro _; rfl
  | cons a as ih =>
    intro h
    show collapseWsAux .nothing (a :: as) = a :: as
    simp only [collapseWsAux]
    split
    · rename_i hwa
      cases as with
      | nil => rfl
      | cons b rest =>
        simp only [noTwoAdjacentWs, Bool.and_eq_true, Bool.not_eq_true',
          Bool.and_eq_false_iff] at h
        have hwb : isPySpace b = false := by
          rcases h.1 with h' | h'
          · rw [h'] at hwa; exact absurd hwa (by simp)
          · exact h'
        have ihr := ih h.2
        unfold collapseWs at ihr
        show collapseWsAux (.one a) (b :: rest) = a :: b :: rest
        simp only [collapseWsAux, hwb, Bool.false_eq_true, if_false] at ihr ⊢
        rw [List.cons.injEq] at ihr
        simp [ihr.2]
    · rename_i hwa
      have htail : noTwoAdjacentWs as = true := by
        cases as with
        | nil => rfl
        | cons b rest =>
          simp only [noTwoAdjacentWs, Bool.and_eq_true] at h
          exact h.2
      have ihr := ih htail
      unfold collapseWs at ihr
      simp [ihr]

theorem dropWhile_eq_self_of_head {p : Char → Bool} {s : List Char}
    (h : s.head?.all (fun c => !(p c)) = true) : s.dropWhile p = s := by
  cases s with
  | nil => rfl
  | cons a as =>
    simp only [List.head?, Option.all] at h
    have hpa : p a = false := by simpa using h
    rw [List.dropWhile_cons, if_neg (by simp [hpa])]

theorem pyStrip_eq_self {p : Char → Bool} {s : List Char}
    (hh : s.head?.all (fun c => !(p c)) = true)
    (hl : s.getLast?.all (fun c => !(p c)) = true) : pyStrip p s = s := by
  unfold pyStrip
  rw [dropWhile_eq_self_of_head hh]
  rw [dropWhile_eq_self_of_head (by rwa [List.head?_reverse])]
  exact List.reverse_reverse s

/-! ## C10 and C8: output safety and (non-)idempotence of the sanitizer -/

/-- C10: for every input string, the output of `sanitize_filename` contains
none of the filesystem-illegal characters `| / \ : * ? " < >` and does not
begin or end with an ASCII space, hyphen, underscore, or parenthesis. -/
theorem sanitize_filename_output_safe (name : List Char) :
    (sanitize_filename name).all (fun c => !(isSpecialChar c)) = true ∧
    (sanitize_filename name).head?.all (fun c => !(isStripChar c)) = true ∧
    (sanitize_filename name).getLast?.all (fun c => !(isStripChar c)) = true := by
  refine ⟨?_, ?_, ?_⟩
  · rw [List.all_eq_true]
    intro c hc
    simp only [sanitize_filename] at hc
    have h1 := mem_of_mem_pyStrip hc
    rcases mem_collapseWs h1 with h2 | h2
    · rw [List.mem_filter] at h2
      simpa using h2.2
    · subst h2; decide
  · cases hh : (sanitize_filename name).head? with
    | none => rfl
    | some c =>
      simp only [sanitize_filename] at hh
      simp [Option.all, pyStrip_head? hh]
  · cases hh : (sanitize_filename name).getLast? with
    | none => rfl
    | some c =>
      simp only [sanitize_filename] at hh
      simp [Option.all, pyStrip_getLast? hh]

/-- C8 counterexample: `sanitize_filename` is not idempotent.  On `"HHDD"`
the garbage pattern deletes the inner `"HD"` (the leftmost match), leaving
`"HD"`, which a second pass deletes entirely. -/
theorem sanitize_filename_not_idempotent :
    sanitize_filename (sanitize_filename "HHDD".toList) ≠
      sanitize_filename "HHDD".toList := by
  decide

/-- The characters from which garbage-free plain titles are built: ASCII
alphanumerics, space, and basic punctuation that survives every pipeline
step. -/
def plainChars : List Char :=
  "abcdefghijklmnopqrstuvwxyzABCDEFGHIJKLMNOPQRSTUVWXYZ0123456789 -&,.!".toList

def isPlainChar (c : Char) : Bool := plainChars.elem c

/-- A plain title: only plain characters, no match of the garbage pattern at
any position, no two adjacent whitespace characters, and no strippable
character at either end. -/
def plainTitle (s : List Char) : Bool :=
  s.all isPlainChar &&
  s.tails.all (fun t => (garbageHere t).isNone) &&
  noTwoAdjacentWs s &&
  s.head?.all (fun c => !(isStripChar c)) &&
  s.getLast?.all (fun c => !(isStripChar c))

theorem plainChar_kept {c : Char} (h : isPlainChar c = true) :
    (!(isSymbolOrControl c) || isAllowedPunct c) = true := by
  have hmem : c ∈ plainChars := by
    rw [← List.elem_iff]
    exact h
  have hall : plainChars.all (fun c => !(isSymbolOrControl c) || isAllowedPunct c) = true := by
    decide
  exact List.all_eq_true.mp hall c hmem

theorem plainChar_not_special {c : Char} (h : isPlainChar c = true) :
    isSpecialChar c = false := by
  have hmem : c ∈ plainChars := by
    rw [← List.elem_iff]
    exact h
  have hall : plainChars.all (fun c => !(isSpecialChar c)) = true := by decide
  simpa using List.all_eq_true.mp hall c hmem

/-- C8 (amended): `sanitize_filename` returns plain titles unchanged, and is
idempotent on them; full idempotence over all strings fails (see
`sanitize_filename_not_idempotent`). -/
theorem sanitize_filename_plain_id (s : List Char) (h : plainTitle s = true) :
    sanitize_filename s = s ∧
    sanitize_filename (sanitize_filename s) = sanitize_filename s := by
  simp only [plainTitle, Bool.and_eq_true] at h
  obtain ⟨⟨⟨⟨hall, hgarb⟩, hws⟩, hhead⟩, hlast⟩ := h
  have h1 : s.filter (fun c => !(isSymbolOrControl c) || isAllowedPunct c) = s :=
    List.filter_eq_self.mpr fun c hc => plainChar_kept (List.all_eq_true.mp hall c hc)
  have h2 : garbageSub s = s :=
    garbageSub_eq_self_of_no_match s fun t ht =>
      Option.isNone_iff_eq_none.mp (List.all_eq_true.mp hgarb t ht)
  have h3 : s.filter (fun c => !(isSpecialChar c)) = s :=
    List.filter_eq_self.mpr fun c hc => by
      simp [plainChar_not_special (List.all_eq_true.mp hall c hc)]
  have h4 : collapseWs s = s := collapseWs_eq_self s hws
  have h5 : pyStrip isStripChar s = s := pyStrip_eq_self hhead hlast
  have hid : sanitize_filename s = s := by
    simp only [sanitize_filename, h1, h2, h3, h4, h5]
  exact ⟨hid, by rw [hid]; exact hid⟩

/-- Witness for `sanitize_filename_plain_id` at the plain title
`"Linkin Park - Numb"`. -/
theorem sanitize_filename_plain_id_witness :
    sanitize_filename "Linkin Park - Numb".toList = "Linkin Park - Numb".toList ∧
    sanitize_filename (sanitize_filename "Linkin Park - Numb".toList) =
      sanitize_filename "Linkin Park - Numb".toList :=
  sanitize_filename_plain_id "Linkin Park - Numb".toList (by decide)

/-! ## URL classifier: `YOUTUBE_VIDEO_RE`, `YOUTUBE_PLAYLIST_RE`

The two patterns are compiled without `re.IGNORECASE`, so all literal
matching here is case-sensitive.  `re.search` truthiness is modelled as
existence of a match at some start position (`reSearch`); inside a match,
optional groups and `.*` only matter existentially for a boolean result. -/

def isWordOrDash (c : Char) : Bool := isWordChar c || c = '-'

/-- `.*list=[\w\-]+` viewed from the current position: some later position on
the same line (no newline crossed) starts with `list=` followed by a word
character or dash. -/
def dotStarListEq : List Char → Bool
  | [] => false
  | c :: cs =>
    (match matchLitCS "list=".toList (c :: cs) with
     | some (d :: _) => isWordOrDash d
     | _ => false) ||
    (c != '\n' && dotStarListEq cs)

/-- `.*v=[\w\-]+` viewed from the current position. -/
def dotStarVEq : List Char → Bool
  | [] => false
  | c :: cs =>
    (match matchLitCS "v=".toList (c :: cs) with
     | some (d :: _) => isWordOrDash d
     | _ => false) ||
    (c != '\n' && dotStarVEq cs)

/-- `(?:youtube\.com/(?:watch\?.*v=|shorts/)|youtu\.be/)[\w\-]+` at the
current position. -/
def matchVideoHost (s : List Char) : Bool :=
  (match matchLitCS "youtube.com/".toList s with
   | some r =>
     (match matchLitCS "watch?".toList r with
      | some r2 => dotStarVEq r2
      | none => false) ||
     (match matchLitCS "shorts/".toList r with
      | some (d :: _) => isWordOrDash d
      | _ => false)
   | none => false) ||
  (match matchLitCS "youtu.be/".toList s with
   | some (d :: _) => isWordOrDash d
   | _ => false)

/-- `youtube\.com/(?:playlist\?|watch\?).*list=[\w\-]+` at the current
position. -/
def matchPlaylistHost (s : List Char) : Bool :=
  match matchLitCS "youtube.com/".toList s with
  | some r =>
    (match matchLitCS "playlist?".toList r with
     | some r2 => dotStarListEq r2
     | none => false) ||
    (match matchLitCS "watch?".toList r with
     | some r2 => dotStarListEq r2
     | none => false)
  | none => false

/-- `(?:www\.|m\.)?` before the host matcher `k`. -/
def optSubdomain (k : List Char → Bool) (s : List Char) : Bool :=
  (match matchLitCS "www.".toList s with
   | some r => k r
   | none => false) ||
  (match matchLitCS "m.".toList s with
   | some r => k r
   | none => false) ||
  k s

/-- `(?:https?://)?` before `k`. -/
def optScheme (k : List Char → Bool) (s : List Char) : Bool :=
  (match matchLitCS "https://".toList s with
   | some r => k r
   | none => false) ||
  (match matchLitCS "http://".toList s with
   | some r => k r
   | none => false) ||
  k s

def videoMatchAt (s : List Char) : Bool := optScheme (optSubdomain matchVideoHost) s

def playlistMatchAt (s : List Char) : Bool := optScheme (optSubdomain matchPlaylistHost) s

/-- Boolean `re.search`: a match starts at some position. -/
def reSearch (p : List Char → Bool) (s : List Char) : Bool := s.tails.any p

/-- `is_youtube_url` from `main.py`. -/
def is_youtube_url (t : String) : Bool :=
  reSearch videoMatchAt t.toList || reSearch playlistMatchAt t.toList

/-- `is_playlist_url` from `main.py`. -/
def is_playlist_url (t : String) : Bool := reSearch playlistMatchAt t.toList

example : is_youtube_url "https://www.youtube.com/watch?v=dQw4w9WgXcQ" = true := by decide
example : is_youtube_url "https://youtu.be/dQw4w9WgXcQ" = true := by decide
example : is_youtube_url "https://www.youtube.com/shorts/abc123DEF" = true := by decide
example : is_youtube_url "https://youtube.com/watch?v=abc&list=PLxyz" = true := by decide
example : is_youtube_url "https://www.google.com" = false := by decide
example : is_youtube_url "https://vimeo.com/12345" = false := by decide
example : is_youtube_url "not a url at all" = false := by decide
example : is_youtube_url "https://youtu.be/" = false := by decide
example : is_youtube_url "" = false := by decide
example : is_playlist_url "https://youtube.com/playlist?list=PLxyz123" = true := by decide
example : is_playlist_url "https://www.youtube.com/watch?v=abc&list=PLxyz123" = true := by decide
example : is_playlist_url "https://youtube.com/watch?v=dQw4w9WgXcQ" = false := by decide
example : is_playlist_url "https://www.youtube.com/shorts/abc123" = false := by decide

/-! ## C6 and C7: classification properties of the URL predicates -/

theorem matchLitCS_suffix :
    ∀ (p s r : List Char), matchLitCS p s = some r → r <:+ s := by
  intro p
  induction p with
  | nil =>
    intro s r h
    simp [matchLitCS] at h
    exact h ▸ List.suffix_refl s
  | cons a ps ih =>
    intro s r h
    cases s with
    | nil => simp [matchLitCS] at h
    | cons c cs =>
      simp only [matchLitCS] at h
      split at h
      · exact (ih cs r h).trans (List.suffix_cons c cs)
      · exact absurd h (by simp)

/-- A `list=` parameter (followed by a word character or dash, as in the
pattern) occurs somewhere in the character list. -/
def listParamIn (s : List Char) : Bool :=
  s.tails.any fun r =>
    match matchLitCS "list=".toList r with
    | some (d :: _) => isWordOrDash d
    | _ => false

/-- A `list=` parameter occurs somewhere in the text. -/
def containsListParam (t : String) : Bool := listParamIn t.toList

theorem listParamIn_of_suffix {r s : List Char} (hrs : r <:+ s)
    (h : listParamIn r = true) : listParamIn s = true := by
  rw [listParamIn, List.any_eq_true] at h ⊢
  rcases h with ⟨t, ht, hp⟩
  exact ⟨t, (List.mem_tails _ _).mpr (((List.mem_tails _ _).mp ht).trans hrs), hp⟩

theorem dotStarListEq_listParamIn :
    ∀ (s : List Char), dotStarListEq s = true → listParamIn s = true := by
  intro s
  induction s with
  | nil => intro h; simp [dotStarListEq] at h
  | cons c cs ih =>
    intro h
    simp only [dotStarListEq, Bool.or_eq_true, Bool.and_eq_true] at h
    rcases h with h | ⟨_, h⟩
    · rw [listParamIn, List.any_eq_true]
      exact ⟨c :: cs, (List.mem_tails _ _).mpr (List.suffix_refl _), h⟩
    · exact listParamIn_of_suffix (List.suffix_cons c cs) (ih h)

theorem matchPlaylistHost_listParamIn (s : List Char)
    (h : matchPlaylistHost s = true) : listParamIn s = true := by
  unfold matchPlaylistHost at h
  cases hm : matchLitCS "youtube.com/".toList s with
  | none => rw [hm] at h; simp at h
  | some r =>
    rw [hm] at h
    have hrs : r <:+ s := matchLitCS_suffix _ _ _ hm
    rw [Bool.or_eq_true] at h
    rcases h with h | h
    · cases hm2 : matchLitCS "playlist?".toList r with
      | none => rw [hm2] at h; simp at h
      | some r2 =>
        rw [hm2] at h
        exact listParamIn_of_suffix ((matchLitCS_suffix _ _ _ hm2).trans hrs)
          (dotStarListEq_listParamIn r2 h)
    · cases hm2 : matchLitCS "watch?".toList r with
      | none => rw [hm2] at h; simp at h
      | some r2 =>
        rw [hm2] at h
        exact listParamIn_of_suffix ((matchLitCS_suffix _ _ _ hm2).trans hrs)
          (dotStarListEq_listParamIn r2 h)

theorem optSubdomain_listParamIn {k : List Char → Bool}
    (hk : ∀ u, k u = true → listParamIn u = true) (s : List Char)
    (h : optSubdomain k s = true) : listParamIn s = true := by
  unfold optSubdomain at h
  rw [Bool.or_eq_true, Bool.or_eq_true] at h
  rcases h with (h | h) | h
  · cases hm : matchLitCS "www.".toList s with
    | none => rw [hm] at h; simp at h
    | some r =>
      rw [hm] at h
      exact listParamIn_of_suffix (matchLitCS_suffix _ _ _ hm) (hk r h)
  · cases hm : matchLitCS "m.".toList s with
    | none => rw [hm] at h; simp at h
    | some r =>
      rw [hm] at h
      exact listParamIn_of_suffix (matchLitCS_suffix _ _ _ hm) (hk r h)
  · exact hk s h

theorem optScheme_listParamIn {k : List Char → Bool}
    (hk : ∀ u, k u = true → listParamIn u = true) (s : List Char)
    (h : optScheme k s = true) : listParamIn s = true := by
  unfold optScheme at h
  rw [Bool.or_eq_true, Bool.or_eq_true] at h
  rcases h with (h | h) | h
  · cases hm : matchLitCS "https://".toList s with
    | none => rw [hm] at h; simp at h
    | some r =>
      rw [hm] at h
      exact listParamIn_of_suffix (matchLitCS_suffix _ _ _ hm) (hk r h)
  · cases hm : matchLitCS "http://".toList s with
    | none => rw [hm] at h; simp at h
    | some r =>
      rw [hm] at h
      exact listParamIn_of_suffix (matchLitCS_suffix _ _ _ hm) (hk r h)
  · exact hk s h

/-- C6 counterexample: a short-link (`youtu.be`) URL carrying a `list=`
parameter is not classified as a playlist, because `YOUTUBE_PLAYLIST_RE`
requires the `youtube.com` host. -/
theorem is_playlist_url_short_link_counterexample :
    is_playlist_url "https://youtu.be/dQw4w9WgXcQ?list=PLxyz" = false ∧
    containsListParam "https://youtu.be/dQw4w9WgXcQ?list=PLxyz" = true := by
  decide

/-- C6 (amended): `is_playlist_url` is true only if a `list=` parameter is
present in the text, and it is true for `youtube.com` playlist/watch URLs
carrying one — regardless of a co-occurring `v=` video identifier — but it
is false for the short-link host even with a `list=` parameter. -/
theorem is_playlist_url_amended :
    (∀ t : String, is_playlist_url t = true → containsListParam t = true) ∧
    is_playlist_url "https://www.youtube.com/watch?v=abc&list=PLxyz" = true ∧
    is_playlist_url "https://youtube.com/playlist?list=PLxyz" = true ∧
    is_playlist_url "https://youtu.be/abc?list=PLxyz" = false := by
  refine ⟨?_, by decide, by decide, by decide⟩
  intro t h
  rw [is_playlist_url, reSearch, List.any_eq_true] at h
  rcases h with ⟨u, hu, hmatch⟩
  show listParamIn t.toList = true
  exact listParamIn_of_suffix ((List.mem_tails _ _).mp hu)
    (optScheme_listParamIn (optSubdomain_listParamIn matchPlaylistHost_listParamIn)
      u hmatch)

/-- Witness for `is_playlist_url_amended` at a concrete playlist URL. -/
theorem is_playlist_url_amended_witness :
    containsListParam "https://youtube.com/playlist?list=PLxyz" = true :=
  is_playlist_url_amended.1 "https://youtube.com/playlist?list=PLxyz" (by decide)

/-- C7 counterexample: the URL predicates are compiled without
`re.IGNORECASE`, so an otherwise-valid link with an uppercased host is not
recognized. -/
theorem url_classifier_uppercase_host_counterexample :
    is_youtube_url "https://YOUTUBE.com/watch?v=dQw4w9WgXcQ" = false ∧
    is_playlist_url "https://YOUTUBE.com/playlist?list=PLxyz" = false := by
  decide

/-- C7 (amended): the URL predicates tolerate optional `www.`/`m.` prefixes
and protocol-less input, and an uppercased scheme is still recognized
(because the scheme is optional and matching may start after it), but the
host is matched case-sensitively: uppercased hosts are rejected. -/
theorem url_classifier_tolerance_and_case :
    is_youtube_url "youtube.com/watch?v=dQw4w9WgXcQ" = true ∧
    is_youtube_url "www.youtube.com/watch?v=dQw4w9WgXcQ" = true ∧
    is_youtube_url "m.youtube.com/watch?v=dQw4w9WgXcQ" = true ∧
    is_youtube_url "http://youtube.com/watch?v=dQw4w9WgXcQ" = true ∧
    is_youtube_url "http://www.youtube.com/watch?v=dQw4w9WgXcQ" = true ∧
    is_youtube_url "http://m.youtube.com/watch?v=dQw4w9WgXcQ" = true ∧
    is_youtube_url "https://youtube.com/watch?v=dQw4w9WgXcQ" = true ∧
    is_youtube_url "https://www.youtube.com/watch?v=dQw4w9WgXcQ" = true ∧
    is_youtube_url "https://m.youtube.com/watch?v=dQw4w9WgXcQ" = true ∧
    is_youtube_url "HTTPS://youtube.com/watch?v=dQw4w9WgXcQ" = true ∧
    is_youtube_url "https://YouTube.com/watch?v=dQw4w9WgXcQ" = false ∧
    is_playlist_url "youtube.com/playlist?list=PLxyz" = true ∧
    is_playlist_url "m.youtube.com/playlist?list=PLxyz" = true ∧
    is_playlist_url "https://www.youtube.com/playlist?list=PLxyz" = true ∧
    is_playlist_url "https://YOUTUBE.COM/playlist?list=PLxyz" = false := by
  decide

/-! ## Google Drive model (`drive_utils.py`)

The remote store is a list of objects plus a fresh-id counter; every remote
API call the helpers issue is appended to a chronological log, so "performs
no create/upload call" is visible as the absence of the corresponding log
entry. -/

/-- One object in the modelled Drive store (file or folder). -/
structure DriveFile where
  id : Nat
  name : String
  parent : Nat
  trashed : Bool
  isFolder : Bool
deriving DecidableEq

/-- A remote Drive API call, as issued by the helpers: a `files().list`
query, a metadata-only `files().create` (folder creation), or a
`files().create` with media (upload). -/
inductive DriveOp where
  | listQuery (parent : Nat) (name : String)
  | folderCreate (name : String) (parent : Nat)
  | uploadCreate (name : String) (parent : Nat)
deriving DecidableEq

structure DriveState where
  files : List DriveFile
  nextId : Nat
  ops : List DriveOp
deriving DecidableEq

/-- The query of `find_file_in_folder`:
`name = '…' and '…' in parents and trashed = false` (no mimeType
constraint, so files and folders both match). -/
def fileMatches (folderId : Nat) (filename : String) (f : DriveFile) : Bool :=
  f.name = filename && f.parent = folderId && !f.trashed

/-- `find_file_in_folder`: run the list query with `pageSize=1` and return
the first match's id, if any. -/
def find_file_in_folder (s : DriveState) (folderId : Nat) (filename : String) :
    Option Nat × DriveState :=
  ((s.files.find? (fileMatches folderId filename)).map (fun f => f.id),
   { s with ops := s.ops ++ [.listQuery folderId filename] })

/-- `create_folder`: return the existing folder's id if one with this name
exists under the parent, otherwise create it and return the fresh id. -/
def create_folder (s : DriveState) (folderName : String) (parentFolderId : Nat) :
    Nat × DriveState :=
  match find_file_in_folder s parentFolderId folderName with
  | (some fid, s1) => (fid, s1)
  | (none, s1) =>
    (s1.nextId,
     { files := s1.files ++ [⟨s1.nextId, folderName, parentFolderId, false, true⟩],
       nextId := s1.nextId + 1,
       ops := s1.ops ++ [.folderCreate folderName parentFolderId] })

/-- `os.path.basename` for POSIX paths: the part after the last slash. -/
def basename (path : String) : String :=
  ⟨(path.toList.reverse.takeWhile (fun c => !(c = '/'))).reverse⟩

/-- `upload_file`: duplicate check by basename in the target folder; on a
hit, return the existing id without uploading.  Otherwise perform the
chunked resumable upload (modelled as one atomic create-with-media call)
and return the fresh id. -/
def upload_file (s : DriveState) (filepath : String) (folderId : Nat) :
    Nat × DriveState :=
  match find_file_in_folder s folderId (basename filepath) with
  | (some fid, s1) => (fid, s1)
  | (none, s1) =>
    (s1.nextId,
     { files := s1.files ++ [⟨s1.nextId, basename filepath, folderId, false, false⟩],
       nextId := s1.nextId + 1,
       ops := s1.ops ++ [.uploadCreate (basename filepath) folderId] })

/-- C1: `create_folder` is idempotent.  A second call with the identical
`(name, parent)` pair returns the identifier found or created by the first
call, and performs no create call on the store: it only logs its list
query, leaving files, counter, and everything else unchanged. -/
theorem create_folder_idempotent (s : DriveState) (name : String) (parent : Nat) :
    (create_folder (create_folder s name parent).2 name parent).1
        = (create_folder s name parent).1 ∧
    (create_folder (create_folder s name parent).2 name parent).2
        = { (create_folder s name parent).2 with
            ops := (create_folder s name parent).2.ops
              ++ [.listQuery parent name] } := by
  cases hf : s.files.find? (fileMatches parent name) with
  | some f =>
    simp only [create_folder, find_file_in_folder, hf, Option.map_some']
    exact ⟨trivial, trivial⟩
  | none =>
    have hnew : fileMatches parent name ⟨s.nextId, name, parent, false, true⟩ = true := by
      simp [fileMatches]
    simp only [create_folder, find_file_in_folder, hf, Option.map_none',
      List.find?_append, hf, Option.none_or]
    rw [List.find?_cons]
    simp only [hnew, Option.map_some']
    exact ⟨trivial, trivial⟩

/-- C2: if the basename of the local file already exists (by the name-based
lookup) in the target folder, `upload_file` returns the existing file's id,
issues zero upload calls, and leaves the store unchanged apart from logging
its list query. -/
theorem upload_file_duplicate_skips (s : DriveState) (filepath : String)
    (folderId fid : Nat)
    (h : (find_file_in_folder s folderId (basename filepath)).1 = some fid) :
    upload_file s filepath folderId =
      (fid, { s with ops := s.ops ++ [.listQuery folderId (basename filepath)] }) := by
  cases hf : s.files.find? (fileMatches folderId (basename filepath)) with
  | none =>
    simp only [find_file_in_folder, hf, Option.map_none'] at h
    exact absurd h (by simp)
  | some f =>
    simp only [find_file_in_folder, hf, Option.map_some'] at h
    simp only [upload_file, find_file_in_folder, hf, Option.map_some']
    rw [Option.some.injEq] at h
    rw [h]

/-- Witness for `upload_file_duplicate_skips`: a store already holding
`song.mp3` in folder 1. -/
theorem upload_file_duplicate_skips_witness :
    upload_file ⟨[⟨7, "song.mp3", 1, false, false⟩], 10, []⟩ "/tmp/d/song.mp3" 1 =
      (7, ⟨[⟨7, "song.mp3", 1, false, false⟩], 10, [.listQuery 1 "song.mp3"]⟩) :=
  upload_file_duplicate_skips ⟨[⟨7, "song.mp3", 1, false, false⟩], 10, []⟩
    "/tmp/d/song.mp3" 1 7 (by decide)

/-! ## Download orchestration model (`download_audio` / `_do_download`)

The working directory is modelled as its listing (bare file names in
iteration order); `os.path.isfile(os.path.join(dir, name))` becomes
membership of `name`, and `os.rename` renames in place.  The extraction
collaborator's result is the `info` dict. -/

/-- One entry of the info dict; only the title is consumed. -/
structure Entry where
  title? : Option String
deriving DecidableEq

/-- The info dict from `extract_info`: the optional `entries` list (present
for playlists, with `None` holes for failed items) and the title. -/
structure YtInfo where
  entries? : Option (List (Option Entry))
  title? : Option String
deriving DecidableEq

/-- One produced track record: `{"filepath", "title", "playlist"}`. -/
structure Track where
  filepath : String
  title : String
  playlist : Option String
deriving DecidableEq

/-- `os.path.join` for one directory and one name (POSIX, as used here). -/
def pathJoin (dir name : String) : String :=
  if dir = "" then name else dir ++ "/" ++ name

/-- `os.rename` restricted to the working directory listing. -/
def renameFile (fs : List String) (oldName newName : String) : List String :=
  fs.map fun f => if f = oldName then newName else f

/-- `f.endswith(".mp3")`. -/
def endsWithMp3 (f : String) : Bool :=
  f.toList.reverse.take 4 = ['3', 'p', 'm', '.']

/-- `sanitize_filename(playlist_title) if playlist_title else None`: note
Python truthiness makes an empty title fall through to `None`. -/
def playlistField : Option String → Option String
  | some t => if t = "" then none else some (sanitizeName t)
  | none => none

/-- The per-entry body of `_do_download`'s loop: rename the raw-titled file
to the sanitized name when it exists under a different name; otherwise, if
the sanitized-titled file is also absent, claim the first `.mp3` whose bare
name is not among the previous tracks' full `filepath`s (the comparison the
source makes) — or keep the never-produced sanitized path if the scan finds
nothing. -/
def resolveEntry (dir : String) (pl : Option String) (fs : List String)
    (results : List Track) (e : Entry) : Track × List String :=
  let raw_title := e.title?.getD "Unknown"
  let cleaned := sanitizeName raw_title
  let originalName := raw_title ++ ".mp3"
  let original_path := pathJoin dir originalName
  let finalName := cleaned ++ ".mp3"
  let final_path := pathJoin dir finalName
  if fs.contains originalName && (original_path != final_path) then
    (⟨final_path, cleaned, pl⟩, renameFile fs originalName finalName)
  else if !(fs.contains finalName) then
    match fs.find? (fun f =>
        endsWithMp3 f && !((results.map fun r => r.filepath).contains f)) with
    | some f => (⟨pathJoin dir f, cleaned, pl⟩, fs)
    | none => (⟨final_path, cleaned, pl⟩, fs)
  else
    (⟨final_path, cleaned, pl⟩, fs)

/-- The loop of `_do_download`: `None` entries are skipped, others append
one track each. -/
def downloadLoop (dir : String) (pl : Option String) :
    List (Option Entry) → List String → List Track → List Track × List String
  | [], fs, results => (results, fs)
  | none :: rest, fs, results => downloadLoop dir pl rest fs results
  | some e :: rest, fs, results =>
    downloadLoop dir pl rest (resolveEntry dir pl fs results e).2
      (results ++ [(resolveEntry dir pl fs results e).1])

/-- `download_audio`: `entries = info.get("entries") or [info]` — an empty
entries list is falsy in Python, so it falls back to treating the info dict
itself as the single entry; the playlist title is taken only when the
entries value is truthy (a non-empty list).  Returns the track records and
the final directory listing. -/
def download_audio (info : YtInfo) (output_dir : String) (fs : List String) :
    List Track × List String :=
  downloadLoop output_dir
    (playlistField
      (match info.entries? with
       | some (_ :: _) => info.title?
       | _ => none))
    (match info.entries? with
     | some (e :: es) => e :: es
     | _ => [some ⟨info.title?⟩])
    fs []

theorem downloadLoop_all_none (dir : String) (pl : Option String) :
    ∀ (es : List (Option Entry)) (fs : List String) (results : List Track),
      (∀ e ∈ es, e = none) →
      downloadLoop dir pl es fs results = (results, fs) := by
  intro es
  induction es with
  | nil => intro fs results _; rfl
  | cons e rest ih =>
    intro fs results h
    have he : e = none := h e (by simp)
    subst he
    exact ih fs results fun e' he' => h e' (by simp [he'])

/-- C4 counterexample: on a successful extraction with an *empty* entries
list, `download_audio` does not return an empty sequence — the info dict
itself is treated as the single entry and one track is fabricated from the
playlist's own title, with a filepath that was never produced. -/
theorem download_audio_empty_entries_fabricates :
    (download_audio ⟨some [], some "My Mix"⟩ "/tmp/ytdl_x" []).1 ≠ [] ∧
    (download_audio ⟨some [], some "My Mix"⟩ "/tmp/ytdl_x" []).1 =
      [⟨"/tmp/ytdl_x/My Mix.mp3", "My Mix", none⟩] := by
  decide

/-- C4 (amended): when the collaborator signals success and every entry of
a non-empty entries list is unusable (`None`), `download_audio` returns the
empty sequence; but when the entries list is present and *empty*, exactly
one track is fabricated from the info dict itself. -/
theorem download_audio_zero_usable :
    (∀ (info : YtInfo) (dir : String) (fs : List String)
        (es : List (Option Entry)),
      info.entries? = some es → es ≠ [] → (∀ e ∈ es, e = none) →
      (download_audio info dir fs).1 = []) ∧
    (∀ (t : Option String) (dir : String) (fs : List String),
      (download_audio ⟨some [], t⟩ dir fs).1.length = 1) := by
  constructor
  · intro info dir fs es hes hne hall
    cases es with
    | nil => exact absurd rfl hne
    | cons e rest =>
      simp only [download_audio, hes]
      rw [downloadLoop_all_none dir _ (e :: rest) fs [] hall]
  · intro t dir fs
    simp only [download_audio, downloadLoop, List.nil_append]
    rfl

/-- C9: the fallback scan compares bare directory names against the full
joined `filepath`s of already-claimed tracks, so the exclusion never fires:
with two entries whose expected files are absent and the directory listing
`["a.mp3", "b.mp3"]`, both tracks are assigned `a.mp3`; the second track is
not assigned the first *unclaimed* audio file `b.mp3`. -/
theorem download_audio_fallback_reclaims_file :
    ((download_audio
        ⟨some [some ⟨some "Song One"⟩, some ⟨some "Song Two"⟩], some "Mix"⟩
        "/tmp/ytdl_x" ["a.mp3", "b.mp3"]).1.map fun t => t.filepath) =
      ["/tmp/ytdl_x/a.mp3", "/tmp/ytdl_x/a.mp3"] := by
  decide

/-! ## Job handler model (`handle_message`)

The handler's user-visible effects and remote calls become an event log.
`replyText tag` stands for the reply/status-edit whose text the tag names;
the download-progress edits (item-granular, fired through the progress
callback) carry no information the claims need and are not logged.  The
temporary workspace is created exactly when the text is recognized; the
`finally` clause's `shutil.rmtree(tmpdir, ignore_errors=True)` is the
`rmtree` event, and `workspaceRemoved` records whether the delete
succeeded (`none` when no workspace was created). -/

inductive Event where
  | replyText (tag : String)
  | sendAudio (title : String)
  | uploadItem (title : String)
  | doneDirect (count : Nat)
  | doneStore (count : Nat) (folder : Option String)
  | rmtree
deriving DecidableEq

structure HandlerIn where
  text : String
  dlResult : Except String (List Track)
  localFiles : List String
  driveFolderId : Option Nat
  serviceFileExists : Bool
  drive : DriveState
  uploadRaises : Option String

structure HandlerResult where
  events : List Event
  drive : DriveState
  raised : Option String
  workspaceRemoved : Option Bool
deriving DecidableEq

/-- Case-sensitive substring test (the diagnostic is lowercased first). -/
def containsSub (needle hay : String) : Bool :=
  hay.toList.tails.any fun r => (matchLitCS needle.toList r).isSome

/-- The `DownloadError` classification of `handle_message`: lowercase the
diagnostic and pick the first matching category. -/
def classifyDlError (exc : String) : String :=
  let msg : String := ⟨exc.toList.map Char.toLower⟩
  if containsSub "private" msg then "private"
  else if containsSub "unavailable" msg || containsSub "removed" msg then "unavailable"
  else if containsSub "geo" msg || containsSub "country" msg then "geo"
  else if containsSub "sign in" msg || containsSub "bot" msg then "signin"
  else if containsSub "requested format" msg || containsSub "format" msg then "format"
  else "generic"

/-- Direct-send mode: send each track whose backing file exists, then report
`len(tracks)` files sent. -/
def deliverDirect (tracks : List Track) (localFiles : List String) : List Event :=
  ((tracks.filter fun t => localFiles.contains t.filepath).map
      fun t => Event.sendAudio t.title)
    ++ [.doneDirect tracks.length]

/-- The upload loop of store mode: skip tracks whose backing file is
missing; otherwise emit the per-item progress event and call `upload_file`.
`raises` injects an exception from the remote store at the first upload
attempt (any such exception propagates out of the loop). -/
def uploadTracks (target : Nat) (localFiles : List String) (raises : Option String) :
    List Track → DriveState → List Event × DriveState × Option String
  | [], s => ([], s, none)
  | t :: rest, s =>
    if localFiles.contains t.filepath then
      match raises with
      | some err => ([.uploadItem t.title], s, some err)
      | none =>
        (Event.uploadItem t.title ::
            (uploadTracks target localFiles none rest (upload_file s t.filepath target).2).1,
         (uploadTracks target localFiles none rest (upload_file s t.filepath target).2).2)
    else uploadTracks target localFiles raises rest s

/-- `if playlist and playlist_name: target_folder = create_folder(...)` —
note Python truthiness: an empty playlist name creates no sub-folder. -/
def storeTarget (text : String) (pn : Option String) (root : Nat) (s : DriveState) :
    Nat × DriveState :=
  if is_playlist_url text then
    match pn with
    | some nm => if nm = "" then (root, s) else create_folder s nm root
    | none => (root, s)
  else (root, s)

/-- The folder name shown in the final message (`if playlist_name:`). -/
def storeFolderTag : Option String → Option String
  | some nm => if nm = "" then none else some nm
  | none => none

/-- Store mode: resolve the target folder, run the upload loop, and report
`len(tracks)` uploaded tracks (with the playlist folder, when named). -/
def deliverStore (text : String) (tracks : List Track) (localFiles : List String)
    (root : Nat) (s : DriveState) (raises : Option String) :
    List Event × DriveState × Option String :=
  let pn := tracks.head?.bind fun t => t.playlist
  let tgt := storeTarget text pn root s
  let up := uploadTracks tgt.1 localFiles raises tracks tgt.2
  match up.2.2 with
  | some err => (up.1, up.2.1, some err)
  | none => (up.1 ++ [.doneStore tracks.length (storeFolderTag pn)], up.2.1, none)

/-- The `try` block of `handle_message` (after the workspace exists):
download outcome handling, the empty-result reply, and mode selection. -/
def handlerBody (inp : HandlerIn) : List Event × DriveState × Option String :=
  match inp.dlResult with
  | .error exc => ([.replyText (classifyDlError exc)], inp.drive, none)
  | .ok tracks =>
    if tracks = [] then ([.replyText "empty"], inp.drive, none)
    else
      match inp.driveFolderId, inp.serviceFileExists with
      | some root, true =>
        (Event.replyText "downloaded" ::
            (deliverStore inp.text tracks inp.localFiles root inp.drive inp.uploadRaises).1,
         (deliverStore inp.text tracks inp.localFiles root inp.drive inp.uploadRaises).2)
      | _, _ =>
        (Event.replyText "downloaded" :: deliverDirect tracks inp.localFiles,
         inp.drive, none)

/-- `handle_message`: reject unrecognized text before any workspace exists;
otherwise run the body inside `try`/`finally`, with the recursive delete
(`ignore_errors=True`) on every exit path. -/
def handle_message (inp : HandlerIn) (rmtreeFails : Bool) : HandlerResult :=
  if is_youtube_url inp.text then
    { events := (Event.replyText "received" :: (handlerBody inp).1) ++ [.rmtree],
      drive := (handlerBody inp).2.1,
      raised := (handlerBody inp).2.2,
      workspaceRemoved := some (!rmtreeFails) }
  else
    { events := [.replyText "invalid"], drive := inp.drive, raised := none,
      workspaceRemoved := none }

/-! ## C3 and C5: delivery skipping and workspace cleanup -/

def sentTitleOf : Event → Option String
  | .sendAudio t => some t
  | _ => none

def uploadTitleOf : Event → Option String
  | .uploadItem t => some t
  | _ => none

def reportedCountOf : Event → Option Nat
  | .doneDirect n => some n
  | .doneStore n _ => some n
  | _ => none

/-- Titles sent as direct audio attachments, in order. -/
def sentTitles (evs : List Event) : List String := evs.filterMap sentTitleOf

/-- Titles for which an upload was attempted, in order. -/
def uploadedTitles (evs : List Event) : List String := evs.filterMap uploadTitleOf

/-- The count announced by the final success message, if one was sent. -/
def reportedCount (evs : List Event) : Option Nat :=
  (evs.filterMap reportedCountOf).head?

theorem uploadTracks_events (target : Nat) (localFiles : List String) :
    ∀ (ts : List Track) (s : DriveState),
      (uploadTracks target localFiles none ts s).1 =
        ((ts.filter fun t => localFiles.contains t.filepath).map
          fun t => Event.uploadItem t.title) ∧
      (uploadTracks target localFiles none ts s).2.2 = none := by
  intro ts
  induction ts with
  | nil => intro s; exact ⟨rfl, rfl⟩
  | cons t rest ih =>
    intro s
    simp only [uploadTracks, List.filter_cons]
    cases hc : localFiles.contains t.filepath with
    | true =>
      simp only [if_true]
      refine ⟨?_, (ih _).2⟩
      simp [(ih _).1]
    | false =>
      simp only [Bool.false_eq_true, if_false]
      exact ih s

theorem filterMap_sentTitleOf_sends (ts : List Track) :
    List.filterMap sentTitleOf (ts.map fun t => Event.sendAudio t.title) =
      ts.map fun t => t.title := by
  induction ts with
  | nil => rfl
  | cons t r ih => simp only [List.map_cons, List.filterMap_cons, sentTitleOf, ih]

theorem filterMap_uploadTitleOf_sends (ts : List Track) :
    List.filterMap uploadTitleOf (ts.map fun t => Event.sendAudio t.title) = [] := by
  induction ts with
  | nil => rfl
  | cons t r ih => simp only [List.map_cons, List.filterMap_cons, uploadTitleOf, ih]

theorem filterMap_sentTitleOf_uploads (ts : List Track) :
    List.filterMap sentTitleOf (ts.map fun t => Event.uploadItem t.title) = [] := by
  induction ts with
  | nil => rfl
  | cons t r ih => simp only [List.map_cons, List.filterMap_cons, sentTitleOf, ih]

theorem filterMap_uploadTitleOf_uploads (ts : List Track) :
    List.filterMap uploadTitleOf (ts.map fun t => Event.uploadItem t.title) =
      ts.map fun t => t.title := by
  induction ts with
  | nil => rfl
  | cons t r ih => simp only [List.map_cons, List.filterMap_cons, uploadTitleOf, ih]

theorem filterMap_reportedCountOf_sends (ts : List Track) :
    List.filterMap reportedCountOf (ts.map fun t => Event.sendAudio t.title) = [] := by
  induction ts with
  | nil => rfl
  | cons t r ih => simp only [List.map_cons, List.filterMap_cons, reportedCountOf, ih]

theorem filterMap_reportedCountOf_uploads (ts : List Track) :
    List.filterMap reportedCountOf (ts.map fun t => Event.uploadItem t.title) = [] := by
  induction ts with
  | nil => rfl
  | cons t r ih => simp only [List.map_cons, List.filterMap_cons, reportedCountOf, ih]


/-- C5: on every recognized request a workspace is created and, on every
terminal path of the body — download failure, empty result, direct-send,
store upload, or a propagating exception — the event log ends with the
recursive delete; and a failing delete is invisible: the events, the raised
exception, and the remote state are identical whether the delete fails or
succeeds (`ignore_errors=True`). -/
theorem handle_message_cleanup (inp : HandlerIn) (b : Bool)
    (h : is_youtube_url inp.text = true) :
    (handle_message inp b).events.getLast? = some Event.rmtree ∧
    (handle_message inp b).workspaceRemoved = some (!b) ∧
    (handle_message inp b).events = (handle_message inp false).events ∧
    (handle_message inp b).raised = (handle_message inp false).raised ∧
    (handle_message inp b).drive = (handle_message inp false).drive := by
  simp only [handle_message, h, if_true]
  refine ⟨?_, trivial, trivial, trivial, trivial⟩
  rw [List.getLast?_append_of_ne_nil _ (by simp)]
  rfl

/-- Witness for `handle_message_cleanup`: a failed download with a failing
cleanup still ends in the delete. -/
theorem handle_message_cleanup_witness :
    (handle_message
        ⟨"https://youtu.be/dQw4w9WgXcQ", .error "Video unavailable", [], none,
         false, ⟨[], 0, []⟩, none⟩ true).events.getLast? = some Event.rmtree :=
  (handle_message_cleanup
    ⟨"https://youtu.be/dQw4w9WgXcQ", .error "Video unavailable", [], none,
     false, ⟨[], 0, []⟩, none⟩ true (by decide)).1

/-- C3 counterexample: direct-send mode, two tracks, one backing file
missing: the missing track is skipped (one `sendAudio`) and the batch
succeeds, but the final message reports the full batch size 2, not the
delivered subset of 1. -/
theorem handle_message_reports_full_count :
    handle_message
      ⟨"https://youtu.be/abc",
       .ok [⟨"/tmp/d/a.mp3", "A", none⟩, ⟨"/tmp/d/b.mp3", "B", none⟩],
       ["/tmp/d/a.mp3"], none, false, ⟨[], 0, []⟩, none⟩ false =
      { events := [.replyText "received", .replyText "downloaded",
                   .sendAudio "A", .doneDirect 2, .rmtree],
        drive := ⟨[], 0, []⟩, raised := none, workspaceRemoved := some true } := by
  decide

/-- C3 (amended): in both delivery modes every track whose backing file is
missing is skipped silently, the batch completes without an error, and the
titles delivered (sent or uploaded) are exactly those of the tracks whose
backing file exists — but the success message reports the total number of
tracks in the batch, including the skipped ones. -/
theorem handle_message_partial_delivery (inp : HandlerIn) (b : Bool)
    (tracks : List Track) (hok : inp.dlResult = .ok tracks) (hne : tracks ≠ [])
    (hurl : is_youtube_url inp.text = true) (hraise : inp.uploadRaises = none) :
    (handle_message inp b).raised = none ∧
    sentTitles (handle_message inp b).events
        ++ uploadedTitles (handle_message inp b).events
      = ((tracks.filter fun t => inp.localFiles.contains t.filepath).map
          fun t => t.title) ∧
    reportedCount (handle_message inp b).events = some tracks.length := by
  simp only [handle_message, hurl, if_true]
  simp only [handlerBody, hok]
  rw [if_neg hne]
  rcases hd : inp.driveFolderId with _ | root
  · -- store unconfigured: direct mode
    refine ⟨rfl, ?_, ?_⟩ <;>
      simp only [sentTitles, uploadedTitles, reportedCount, deliverDirect,
        List.filterMap_append, List.filterMap_cons, sentTitleOf, uploadTitleOf,
        reportedCountOf, filterMap_sentTitleOf_sends, filterMap_uploadTitleOf_sends,
        filterMap_reportedCountOf_sends, List.filterMap_nil, List.append_nil,
        List.nil_append, List.head?_cons]
  · cases hs : inp.serviceFileExists with
    | false =>
      refine ⟨rfl, ?_, ?_⟩ <;>
        simp only [sentTitles, uploadedTitles, reportedCount, deliverDirect,
          List.filterMap_append, List.filterMap_cons, sentTitleOf, uploadTitleOf,
          reportedCountOf, filterMap_sentTitleOf_sends, filterMap_uploadTitleOf_sends,
          filterMap_reportedCountOf_sends, List.filterMap_nil, List.append_nil,
          List.nil_append, List.head?_cons]
    | true =>
      simp only [deliverStore, hraise]
      have hup := uploadTracks_events
        (storeTarget inp.text (tracks.head?.bind fun t => t.playlist) root inp.drive).1
        inp.localFiles tracks
        (storeTarget inp.text (tracks.head?.bind fun t => t.playlist) root inp.drive).2
      rw [hup.2]
      refine ⟨rfl, ?_, ?_⟩ <;>
        simp only [sentTitles, uploadedTitles, reportedCount, hup.1,
          List.filterMap_append, List.filterMap_cons, sentTitleOf, uploadTitleOf,
          reportedCountOf, filterMap_sentTitleOf_uploads,
          filterMap_uploadTitleOf_uploads, filterMap_reportedCountOf_uploads,
          List.filterMap_nil, List.append_nil, List.nil_append,
          List.head?_cons]

/-- Witness for `handle_message_partial_delivery` in store mode with one of
two backing files missing. -/
theorem handle_message_partial_delivery_witness :
    (handle_message
        ⟨"https://youtu.be/abc",
         .ok [⟨"/tmp/d/a.mp3", "A", none⟩, ⟨"/tmp/d/b.mp3", "B", none⟩],
         ["/tmp/d/a.mp3"], some 1, true, ⟨[], 10, []⟩, none⟩ false).raised = none ∧
    sentTitles (handle_message
        ⟨"https://youtu.be/abc",
         .ok [⟨"/tmp/d/a.mp3", "A", none⟩, ⟨"/tmp/d/b.mp3", "B", none⟩],
         ["/tmp/d/a.mp3"], some 1, true, ⟨[], 10, []⟩, none⟩ false).events
        ++ uploadedTitles (handle_message
        ⟨"https://youtu.be/abc",
         .ok [⟨"/tmp/d/a.mp3", "A", none⟩, ⟨"/tmp/d/b.mp3", "B", none⟩],
         ["/tmp/d/a.mp3"], some 1, true, ⟨[], 10, []⟩, none⟩ false).events
      = (([⟨"/tmp/d/a.mp3", "A", none⟩, ⟨"/tmp/d/b.mp3", "B", none⟩] :
            List Track).filter fun t =>
          (["/tmp/d/a.mp3"] : List String).contains t.filepath).map
          (fun t => t.title) ∧
    reportedCount (handle_message
        ⟨"https://youtu.be/abc",
         .ok [⟨"/tmp/d/a.mp3", "A", none⟩, ⟨"/tmp/d/b.mp3", "B", none⟩],
         ["/tmp/d/a.mp3"], some 1, true, ⟨[], 10, []⟩, none⟩ false).events =
      some ([⟨"/tmp/d/a.mp3", "A", none⟩, ⟨"/tmp/d/b.mp3", "B", none⟩] :
        List Track).length :=
  handle_message_partial_delivery
    ⟨"https://youtu.be/abc",
     .ok [⟨"/tmp/d/a.mp3", "A", none⟩, ⟨"/tmp/d/b.mp3", "B", none⟩],
     ["/tmp/d/a.mp3"], some 1, true, ⟨[], 10, []⟩, none⟩ false
    [⟨"/tmp/d/a.mp3", "A", none⟩, ⟨"/tmp/d/b.mp3", "B", none⟩]
    rfl (by decide) (by decide) rfl

/-- Witness for `download_audio_zero_usable`: an entries list whose only
entry is unusable, and an empty entries list. -/
theorem download_audio_zero_usable_witness :
    (download_audio ⟨some [none], some "Mix"⟩ "/tmp/d" ["x.mp3"]).1 = [] ∧
    (download_audio ⟨some [], some "Mix"⟩ "/tmp/d" []).1.length = 1 :=
  ⟨download_audio_zero_usable.1 ⟨some [none], some "Mix"⟩ "/tmp/d" ["x.mp3"] [none]
      rfl (by decide) (by decide),
   download_audio_zero_usable.2 (some "Mix") "/tmp/d" []⟩

end Ytdl
